import Mathlib

/-!
Verification of the music-man audio indexing and transfer engine.

This file gives a shallow embedding of the core data model and operations of
the repository (src/audio.rs, src/device.rs, src/index.rs, src/cache.rs,
src/target.rs) and proves or refutes the specification claims about them.

Modelling conventions:
* Rust String / &str values are Lean String values (valid UTF-8 is assumed,
  so Path::to_string_lossy is the identity).
* Paths (Path / PathBuf) are Lean Strings with Unix separators; the fragments
  of std path behaviour the code relies on (file_name, file_stem, extension,
  join) are defined below, following their documented std semantics.
* HashMap is modelled as an association list where insertion overwrites the
  binding of an existing key in place and otherwise appends.
* Filesystem reads (read_dir) are modelled by passing the directory listing
  as an explicit argument; filesystem writes (fs::copy, create_dir_all) are
  modelled as returned effect records, and are assumed to succeed (an Io
  error aborts the corresponding Rust function; the claims under scrutiny
  are about the non-Io behaviour).
-/

/-! ## String and path utilities (model of the std functions the code uses) -/

/-- Model of Rust char::is_whitespace: the Unicode White_Space code points. -/
def rustIsWhitespace (c : Char) : Bool :=
  (([0x09, 0x0A, 0x0B, 0x0C, 0x0D, 0x20, 0x85, 0xA0, 0x1680,
     0x2000, 0x2001, 0x2002, 0x2003, 0x2004, 0x2005, 0x2006, 0x2007,
     0x2008, 0x2009, 0x200A, 0x2028, 0x2029, 0x202F, 0x205F, 0x3000] : List Nat).contains
    c.toNat : Bool)

/-- Model of Rust str::trim: strip leading and trailing Unicode whitespace. -/
def rustTrim (s : String) : String :=
  String.mk (((s.data.dropWhile rustIsWhitespace).reverse.dropWhile rustIsWhitespace).reverse)

/-- ASCII-only lowercasing of a code point (Rust u8::to_ascii_lowercase). -/
def asciiLowerNat (n : Nat) : Nat :=
  if 65 ≤ n ∧ n ≤ 90 then n + 32 else n

/-- ASCII-only lowercasing of a character. -/
def asciiLowerChar (c : Char) : Char := Char.ofNat (asciiLowerNat c.toNat)

/-- Model of Rust str::eq_ignore_ascii_case: equality after ASCII-only
lowercasing (for valid UTF-8 the byte-wise std comparison coincides with this
character-wise one). -/
def eqIgnoreAsciiCase (s t : String) : Prop :=
  s.data.map asciiLowerChar = t.data.map asciiLowerChar

instance (s t : String) : Decidable (eqIgnoreAsciiCase s t) := by
  unfold eqIgnoreAsciiCase; infer_instance

/-- Model of the Unicode simple lowercase mapping used by Rust
char::to_lowercase, on the Basic Latin and Latin-1 ranges: ASCII A-Z and the
uppercase Latin-1 letters U+00C0..U+00D6 and U+00D8..U+00DE map down by 0x20;
code points outside these ranges are kept unchanged (the claims under
scrutiny only involve characters in these ranges). -/
def rustLowerNat (n : Nat) : Nat :=
  if 65 ≤ n ∧ n ≤ 90 then n + 32
  else if (0xC0 ≤ n ∧ n ≤ 0xD6) ∨ (0xD8 ≤ n ∧ n ≤ 0xDE) then n + 32
  else n

/-- Lowercasing of a character, per rustLowerNat. -/
def rustCharLower (c : Char) : Char := Char.ofNat (rustLowerNat c.toNat)

/-- Model of Rust str::to_lowercase (restricted per rustLowerNat). -/
def rustToLowercase (s : String) : String := String.mk (s.data.map rustCharLower)

/-- Model of str::starts_with for character lists: sep begins the list s. -/
def beginsWith : List Char → List Char → Bool
  | [], _ => true
  | _ :: _, [] => false
  | a :: l1, b :: l2 => if a = b then beginsWith l1 l2 else false

/-- Model of Rust str::split_once on character lists: split around the first
occurrence of sep, returning the parts before and after it. -/
def splitOnceChars (sep : List Char) : List Char → Option (List Char × List Char)
  | [] => if beginsWith sep [] then some ([], List.drop sep.length []) else none
  | c :: s =>
    if beginsWith sep (c :: s) then some ([], List.drop sep.length (c :: s))
    else
      match splitOnceChars sep s with
      | some (l, r) => some (c :: l, r)
      | none => none

/-- Model of Rust str::split_once on strings. -/
def splitOnceStr (s sep : String) : Option (String × String) :=
  match splitOnceChars sep.data s.data with
  | some (l, r) => some (String.mk l, String.mk r)
  | none => none

/-- Split a character list at every '/' (used to model std path components). -/
def splitSlash : List Char → List (List Char)
  | [] => [[]]
  | c :: rest =>
    if c = '/' then [] :: splitSlash rest
    else
      match splitSlash rest with
      | [] => [[c]]
      | g :: gs => (c :: g) :: gs

/-- Model of std Path normal components: the slash-separated pieces of the
path, with empty pieces and "." pieces dropped. -/
def pathComponents (p : String) : List (List Char) :=
  (splitSlash p.data).filter (fun l => l ≠ [] ∧ l ≠ ['.'])

/-- Model of std Path::file_name: the final normal component, unless the path
ends in "..". -/
def fileName (p : String) : Option String :=
  match (pathComponents p).getLast? with
  | none => none
  | some l => if l = ['.', '.'] then none else some (String.mk l)

/-- Split a file name around its last '.', if any. -/
def lastDotSplit (name : List Char) : Option (List Char × List Char) :=
  match name.reverse.dropWhile (fun c => c ≠ '.') with
  | [] => none
  | _ :: stemRev =>
    some (stemRev.reverse, (name.reverse.takeWhile (fun c => c ≠ '.')).reverse)

/-- The stem of a file name (std Path::file_stem applied to a bare file name):
everything before the last '.', except that a name whose only '.' is leading
(such as ".gitignore") is its own stem. -/
def stemChars (name : List Char) : List Char :=
  match lastDotSplit name with
  | none => name
  | some (stem, _) => if stem = [] then name else stem

/-- The extension of a file name (std Path::extension applied to a bare file
name): everything after the last '.', absent when there is no '.' or the only
'.' is leading. -/
def extnChars (name : List Char) : Option (List Char) :=
  match lastDotSplit name with
  | none => none
  | some (stem, e) => if stem = [] then none else some e

/-- Model of std Path::file_stem. -/
def fileStem (p : String) : Option String :=
  (fileName p).map (fun n => String.mk (stemChars n.data))

/-- Model of std Path::extension. -/
def extensionOf (p : String) : Option String :=
  (fileName p).bind (fun n => (extnChars n.data).map (fun l => String.mk l))

/-- Model of std Path::join for a trailing component: an absolute component
replaces the base, otherwise the component is appended after a separator. -/
def pathJoin (base comp : String) : String :=
  if beginsWith ['/'] comp.data then comp
  else if base = "" then comp
  else if base.data.getLast? = some '/' then base ++ comp
  else base ++ "/" ++ comp

/-! ## src/audio.rs — data model -/

/-- Model of PlaylistName (src/audio.rs). -/
inductive PlaylistName where
  | Named : String → PlaylistName
  | Uncategorized : PlaylistName
deriving DecidableEq, Repr

/-- Model of AudioInfo (src/audio.rs): the descriptor of a logical track. -/
structure AudioInfo where
  artist : Option String
  title : Option String
  filename : Option String
  youtube_url : Option String
  isrc : Option String
  duration_secs : Option Nat
deriving DecidableEq, Repr

/-- Model of Playlist (src/audio.rs). -/
structure Playlist where
  name : PlaylistName
  audio : List AudioInfo
deriving DecidableEq, Repr

/-- Model of AudioKey (src/audio.rs): lowercased artist and title. -/
structure AudioKey where
  artist : String
  title : String
deriving DecidableEq, Repr

/-- Model of AudioKey::from_info (src/audio.rs lines 31-38): defined exactly
when both artist and title are present; both are lowercased. -/
def AudioKey.from_info (info : AudioInfo) : Option AudioKey :=
  match info.artist, info.title with
  | some a, some t => some { artist := rustToLowercase a, title := rustToLowercase t }
  | _, _ => none

/-- Model of AudioError (src/audio.rs). The Io payload is kept as a string. -/
inductive AudioError where
  | Unexpected : AudioError
  | NotFound : AudioError
  | MissingInfo : AudioError
  | Unavailable : String → AudioError
  | ExportFailed : String → AudioError
  | Io : String → AudioError
deriving DecidableEq, Repr

/-- Model of AudioLocation (src/audio.rs). -/
inductive AudioLocation where
  | LocalPath : String → AudioLocation
  | RemoteUrl : String → AudioLocation
deriving DecidableEq, Repr

/-- The separator " - " (space, hyphen-minus, space). -/
def sepHyphen : String := " - "

/-- The second separator literal of from_filename (src/audio.rs line 64):
the source bytes there are C3 A2 E2 82 AC E2 80 9C, the three characters
U+00E2, U+20AC, U+201C (a mojibake double-encoding of the en-dash U+2013)
between two spaces. The line's trailing comment calls it the en-dash, and
src/source.rs line 192 and src/bin/rename_cache.rs line 58 use the genuine
" – " (U+2013) for the same split, but this literal is not the en-dash: the
compiled program splits at " â€“ " and never at a real " – ". -/
def sepMojibake : String :=
  String.mk [' ', Char.ofNat 0xE2, Char.ofNat 0x20AC, Char.ofNat 0x201C, ' ']

/-- Model of AudioInfo::from_filename (src/audio.rs lines 52-77): take the
file stem (falling back to the whole string when absent), split it at the
first " - ", else at the first occurrence of the mojibake separator
sepMojibake (not at a real en-dash; see sepMojibake), trimming both halves
into artist and title; with no split the whole stem is the title. The
filename field records the input string. -/
def AudioInfo.from_filename (p : String) : AudioInfo :=
  let stem := (fileStem p).getD p
  match (splitOnceStr stem sepHyphen).orElse (fun _ => splitOnceStr stem sepMojibake) with
  | some (a, t) =>
    { artist := some (rustTrim a), title := some (rustTrim t), filename := some p,
      youtube_url := none, isrc := none, duration_secs := none }
  | none =>
    { artist := none, title := some stem, filename := some p,
      youtube_url := none, isrc := none, duration_secs := none }

/-- Model of a directory entry as observed through read_dir: its bare file
name and whether it is a regular file. -/
structure DirEntryM where
  name : String
  isFile : Bool
deriving DecidableEq, Repr

/-- The supported audio extensions (src/audio.rs lines 126-131). -/
def supportedExts : List String := ["mp3", "flac", "wma", "wav", "aac", "m4a", "ape"]

/-- Model of is_supported_audio_file (src/audio.rs lines 112-133, duplicated
in src/device.rs lines 4-25): a regular file, not a macOS "._" fork file,
whose lowercased extension is supported. -/
def is_supported_audio_file (e : DirEntryM) : Bool :=
  e.isFile &&
  !(beginsWith ['.', '_'] e.name.data) &&
  (match extensionOf e.name with
   | some x => supportedExts.contains (rustToLowercase x)
   | none => false)

/-- Model of the free function list_audio_in_folder (src/audio.rs lines
136-142, used by LocalCache): each supported entry is parsed from its bare
file name (entry.file_name()). -/
def cache_list_audio_in_folder (entries : List DirEntryM) : List AudioInfo :=
  (entries.filter is_supported_audio_file).map (fun e => AudioInfo.from_filename e.name)

/-! ## src/device.rs and src/index.rs and src/target.rs — AttachedDevice -/

/-- Model of AttachedDevice::list_audio_in_folder (src/device.rs lines
77-87): each supported entry is parsed from entry.path(), the folder path
joined with the entry name. -/
def device_list_audio_in_folder (folder : String) (entries : List DirEntryM) : List AudioInfo :=
  (entries.filter is_supported_audio_file).map
    (fun e => AudioInfo.from_filename (pathJoin folder e.name))

/-- Model of a top-level entry of a device root: its name, whether it is a
directory, and (for a directory) its own entries. -/
structure RootEntry where
  name : String
  isDir : Bool
  contents : List DirEntryM
deriving DecidableEq, Repr

/-- The root-directory filter of AttachedDevice::list_playlists
(src/index.rs lines 26-35): directories whose name does not start with '.'
and is not "System Volume Information". -/
def dirFilter (e : RootEntry) : Bool :=
  e.isDir && !(beginsWith ['.'] e.name.data) && !(e.name = "System Volume Information" : Bool)

/-- Model of AttachedDevice::list_playlists (src/index.rs lines 19-49): one
Named playlist per retained root directory, in iteration order, then an
Uncategorized playlist of the supported root files when that list is
non-empty. -/
def AttachedDevice.list_playlists (devPath : String) (root : List RootEntry) : List Playlist :=
  let named := (root.filter dirFilter).map (fun e =>
    { name := PlaylistName.Named e.name,
      audio := device_list_audio_in_folder (pathJoin devPath e.name) e.contents })
  let rootAudio := device_list_audio_in_folder devPath
    (root.map (fun e => { name := e.name, isFile := !e.isDir }))
  named ++ (if rootAudio.isEmpty then [] else
    [{ name := PlaylistName.Uncategorized, audio := rootAudio }])

/-- The filesystem effects of an import: directories passed to
create_dir_all and (source, destination) copies performed. -/
structure ImportEffects where
  dirsCreated : List String
  copies : List (String × String)
deriving DecidableEq, Repr

/-- Model of AttachedDevice::import (src/target.rs lines 33-73): only a
LocalPath source is accepted; the destination directory is the device root
for Uncategorized (or an absent playlist) and the root joined with the name
for a Named playlist; that directory is created; the destination file name is
the source's basename. The source code unwraps file_name(), which panics on
a path without one; that case is modelled as an Unexpected error. -/
def AttachedDevice.import (devPath : String) (source_location : AudioLocation)
    (_info : AudioInfo) (playlist : Option PlaylistName) :
    Except AudioError (AudioLocation × ImportEffects) :=
  match source_location with
  | AudioLocation.LocalPath source_path =>
    let dirpath :=
      match playlist.getD PlaylistName.Uncategorized with
      | PlaylistName.Uncategorized => devPath
      | PlaylistName.Named name => pathJoin devPath name
    match fileName source_path with
    | none => Except.error AudioError.Unexpected
    | some filename =>
      let dest_path := pathJoin dirpath filename
      Except.ok (AudioLocation.LocalPath dest_path,
        { dirsCreated := [dirpath], copies := [(source_path, dest_path)] })
  | _ => Except.error (AudioError.ExportFailed
      "Currently do not support import to AttachedDevice from non-LocalPath.")

/-! ## src/cache.rs — LocalCache -/

/-- Lookup in an association-list model of HashMap. -/
def mapLookup {α β : Type} [DecidableEq α] : List (α × β) → α → Option β
  | [], _ => none
  | (k', v) :: rest, k => if k' = k then some v else mapLookup rest k

/-- Insertion in an association-list model of HashMap: overwrite the binding
of an existing key in place, otherwise append. -/
def mapInsert {α β : Type} [DecidableEq α] : List (α × β) → α → β → List (α × β)
  | [], k, v => [(k, v)]
  | (k', v') :: rest, k, v =>
    if k' = k then (k, v) :: rest else (k', v') :: mapInsert rest k v

/-- Push a value onto the list bound to a key, creating the binding if absent
(HashMap entry(..).or_default().push(..)). -/
def mapPush {α β : Type} [DecidableEq α] : List (α × List β) → α → β → List (α × List β)
  | [], k, v => [(k, [v])]
  | (k', l) :: rest, k, v =>
    if k' = k then (k', l ++ [v]) :: rest else (k', l) :: mapPush rest k v

/-- Model of the LocalCache state (src/cache.rs lines 67-77): the flat audio
directory path, the in-memory index, and the playlist overlay. The
playlists_path field and the on-disk persistence of the overlay are I/O and
are not modelled (save_playlists is best-effort in the source). -/
structure LocalCache where
  audio_dir : String
  index : List (AudioKey × String)
  playlists : List (String × List AudioInfo)
deriving DecidableEq, Repr

/-- Model of LocalCache::search_path (src/cache.rs lines 119-123). -/
def LocalCache.search_path (c : LocalCache) (info : AudioInfo) : Except AudioError String :=
  match AudioKey.from_info info with
  | none => Except.error AudioError.MissingInfo
  | some key =>
    match mapLookup c.index key with
    | none => Except.error AudioError.NotFound
    | some path => Except.ok path

/-- Model of LocalCache::search (src/cache.rs lines 114-117). -/
def LocalCache.search (c : LocalCache) (info : AudioInfo) : Except AudioError AudioLocation :=
  match c.search_path info with
  | Except.error e => Except.error e
  | Except.ok path => Except.ok (AudioLocation.LocalPath path)

/-- Model of LocalCache::add_to_playlist (src/cache.rs lines 180-186).
The trailing best-effort save_playlists() write is I/O and not modelled. -/
def LocalCache.add_to_playlist (c : LocalCache) (playlist_name : String)
    (audio : AudioInfo) : LocalCache :=
  { c with playlists := mapPush c.playlists playlist_name audio }

/-- Model of LocalCache::add_to_cache (src/cache.rs lines 127-139): the index
is updated only for a LocalPath location with a derivable key; the playlist
overlay is appended to whenever a playlist is given. -/
def LocalCache.add_to_cache (c : LocalCache) (info : AudioInfo)
    (location : AudioLocation) (playlist : Option String) : LocalCache :=
  let c1 :=
    match location with
    | AudioLocation.LocalPath path =>
      match AudioKey.from_info info with
      | some key => { c with index := mapInsert c.index key path }
      | none => c
    | _ => c
  match playlist with
  | some playlist_name => c1.add_to_playlist playlist_name info
  | none => c1

/-- Fail-fast collection of results, modelling Rust's collect over an
iterator of Result values: the first error aborts the whole collection. -/
def collectResults {α β : Type} (f : α → Except AudioError β) :
    List α → Except AudioError (List β)
  | [] => Except.ok []
  | a :: l =>
    match f a with
    | Except.error e => Except.error e
    | Except.ok b =>
      match collectResults f l with
      | Except.error e => Except.error e
      | Except.ok bs => Except.ok (b :: bs)

/-- The per-entry closure of LocalCache::search_playlist: resolve one overlay
entry through search and pair it with its location. -/
def resolveEntry (c : LocalCache) (info : AudioInfo) :
    Except AudioError (AudioInfo × AudioLocation) :=
  match c.search info with
  | Except.error e => Except.error e
  | Except.ok location => Except.ok (info, location)

/-- Model of LocalCache::search_playlist (src/cache.rs lines 99-108): a
missing overlay entry is NotFound; otherwise each entry is resolved through
search and the results are collected fail-fast. -/
def LocalCache.search_playlist (c : LocalCache) (playlist_name : String) :
    Except AudioError (List (AudioInfo × AudioLocation)) :=
  match mapLookup c.playlists playlist_name with
  | none => Except.error AudioError.NotFound
  | some playlist => collectResults (resolveEntry c) playlist

/-- Model of the AudioIndex impl LocalCache::list_playlists (src/cache.rs
lines 194-215): one Named playlist per overlay entry, then an Uncategorized
playlist of the supported files of the audio directory (whose listing is the
entries argument) when that list is non-empty. -/
def LocalCache.list_playlists (c : LocalCache) (entries : List DirEntryM) : List Playlist :=
  let named := c.playlists.map (fun nt => { name := PlaylistName.Named nt.1, audio := nt.2 })
  let all_cached := cache_list_audio_in_folder entries
  named ++ (if all_cached.isEmpty then [] else
    [{ name := PlaylistName.Uncategorized, audio := all_cached }])

/-- Model of the AudioSource impl LocalCache::fetch (src/cache.rs lines
234-247): resolve through search_path; when the destination differs from the
audio directory, copy the cached file under the destination keeping its
basename; otherwise hand back the cached path. The second component records
the (source, destination) copies performed. -/
def LocalCache.fetch (c : LocalCache) (info : AudioInfo) (dest : String) :
    Except AudioError (AudioLocation × List (String × String)) :=
  match c.search_path info with
  | Except.error e => Except.error e
  | Except.ok cached_path =>
    if dest ≠ c.audio_dir then
      match fileName cached_path with
      | none => Except.error AudioError.NotFound
      | some filename =>
        let dest_path := pathJoin dest filename
        Except.ok (AudioLocation.LocalPath dest_path, [(cached_path, dest_path)])
    else
      Except.ok (AudioLocation.LocalPath cached_path, [])

/-! ## Lemmas about beginsWith and splitOnceChars -/

/-- A list begins with sep exactly when it extends sep. -/
theorem beginsWith_iff (sep s : List Char) :
    beginsWith sep s = true ↔ ∃ t, s = sep ++ t := by
  induction sep generalizing s with
  | nil => simp [beginsWith]
  | cons a l1 ih =>
    cases s with
    | nil => simp [beginsWith]
    | cons b l2 =>
      simp only [beginsWith]
      by_cases hab : a = b
      · subst hab
        rw [if_pos rfl, ih]
        constructor
        · rintro ⟨t, rfl⟩; exact ⟨t, rfl⟩
        · rintro ⟨t, ht⟩
          injection ht with h1 h2
          exact ⟨t, h2⟩
      · rw [if_neg hab]
        constructor
        · intro h; cases h
        · rintro ⟨t, ht⟩
          injection ht with h1 h2
          exact absurd h1.symm hab

/-- The pair (l, r) is the split of s around the first occurrence of sep:
s decomposes as l ++ sep ++ r and no occurrence of sep starts earlier. -/
def isFirstSplit (s sep l r : List Char) : Prop :=
  s = l ++ sep ++ r ∧ ∀ i, i < l.length → beginsWith sep (s.drop i) = false

instance (s sep l r : List Char) : Decidable (isFirstSplit s sep l r) := by
  unfold isFirstSplit; infer_instance

/-- The separator sep occurs nowhere in s. -/
def noOccur (s sep : List Char) : Prop :=
  ∀ i, i < s.length + 1 → beginsWith sep (s.drop i) = false

instance (s sep : List Char) : Decidable (noOccur s sep) := by
  unfold noOccur; infer_instance

/-- A successful splitOnceChars returns the split at the first occurrence. -/
theorem splitOnceChars_some (sep : List Char) :
    ∀ s l r, splitOnceChars sep s = some (l, r) → isFirstSplit s sep l r := by
  intro s
  induction s with
  | nil =>
    intro l r h
    simp only [splitOnceChars] at h
    split at h
    case isTrue hb =>
      obtain ⟨t, ht⟩ := (beginsWith_iff sep []).mp hb
      obtain ⟨hl, hr⟩ : l = [] ∧ r = List.drop sep.length [] := by
        simpa using h.symm
      have hsep : sep = [] := (List.append_eq_nil.mp ht.symm).1
      refine ⟨?_, ?_⟩
      · rw [hl, hr, hsep]
        simp
      · intro i hi
        rw [hl] at hi
        simp at hi
    case isFalse => exact absurd h (by simp)
  | cons c s' ih =>
    intro l r h
    simp only [splitOnceChars] at h
    split at h
    case isTrue hb =>
      obtain ⟨t, ht⟩ := (beginsWith_iff sep (c :: s')).mp hb
      obtain ⟨hl, hr⟩ : l = [] ∧ r = List.drop sep.length (c :: s') := by
        simpa using h.symm
      refine ⟨?_, ?_⟩
      · rw [hl, hr, ht, List.drop_left]; simp
      · intro i hi
        rw [hl] at hi
        simp at hi
    case isFalse hb =>
      cases hrec : splitOnceChars sep s' with
      | none => rw [hrec] at h; exact absurd h (by simp)
      | some p =>
        obtain ⟨l', r'⟩ := p
        rw [hrec] at h
        obtain ⟨hl, hr⟩ : l = c :: l' ∧ r = r' := by
          simpa using h.symm
        obtain ⟨e', m'⟩ := ih l' r' hrec
        refine ⟨?_, ?_⟩
        · rw [hl, hr, e']
          simp [List.cons_append]
        · intro i hi
          rw [hl] at hi
          cases i with
          | zero =>
            simp only [List.drop_zero]
            exact Bool.eq_false_iff.mpr hb
          | succ j =>
            simp only [List.drop_succ_cons]
            exact m' j (by simpa using hi)

/-- A failing splitOnceChars means the separator occurs nowhere. -/
theorem splitOnceChars_none (sep : List Char) :
    ∀ s, splitOnceChars sep s = none → noOccur s sep := by
  intro s
  induction s with
  | nil =>
    intro h
    simp only [splitOnceChars] at h
    split at h
    case isTrue => exact absurd h (by simp)
    case isFalse hb =>
      intro i hi
      rw [List.drop_nil]
      exact Bool.eq_false_iff.mpr hb
  | cons c s' ih =>
    intro h
    simp only [splitOnceChars] at h
    split at h
    case isTrue => exact absurd h (by simp)
    case isFalse hb =>
      cases hrec : splitOnceChars sep s' with
      | some p => rw [hrec] at h; exact absurd h (by simp)
      | none =>
        intro i hi
        cases i with
        | zero =>
          simp only [List.drop_zero]
          exact Bool.eq_false_iff.mpr hb
        | succ j =>
          simp only [List.drop_succ_cons]
          exact ih hrec j (by simpa using hi)

/-- First splits are unique. -/
theorem isFirstSplit_unique {s sep l r l' r' : List Char}
    (h1 : isFirstSplit s sep l r) (h2 : isFirstSplit s sep l' r') : l = l' ∧ r = r' := by
  obtain ⟨e1, m1⟩ := h1
  obtain ⟨e2, m2⟩ := h2
  have hocc1 : beginsWith sep (s.drop l.length) = true := by
    rw [e1, List.append_assoc, List.drop_left]
    exact (beginsWith_iff sep (sep ++ r)).mpr ⟨r, rfl⟩
  have hocc2 : beginsWith sep (s.drop l'.length) = true := by
    rw [e2, List.append_assoc, List.drop_left]
    exact (beginsWith_iff sep (sep ++ r')).mpr ⟨r', rfl⟩
  have hlen : l.length = l'.length := by
    rcases Nat.lt_trichotomy l.length l'.length with hlt | heq | hgt
    · rw [m2 l.length hlt] at hocc1; cases hocc1
    · exact heq
    · rw [m1 l'.length hgt] at hocc2; cases hocc2
  have hl : l = l' := by
    have t1 : List.take l.length s = l := by
      rw [e1, List.append_assoc, List.take_left]
    have t2 : List.take l'.length s = l' := by
      rw [e2, List.append_assoc, List.take_left]
    rw [← t1, ← t2, hlen]
  refine ⟨hl, ?_⟩
  rw [hl] at e1
  exact List.append_cancel_left (e1.symm.trans e2)

/-- Completeness: the first split is what splitOnceChars computes. -/
theorem splitOnceChars_eq_some {s sep l r : List Char}
    (h : isFirstSplit s sep l r) : splitOnceChars sep s = some (l, r) := by
  cases hsp : splitOnceChars sep s with
  | none =>
    have hno := splitOnceChars_none sep s hsp
    have hocc : beginsWith sep (s.drop l.length) = true := by
      rw [h.1, List.append_assoc, List.drop_left]
      exact (beginsWith_iff sep (sep ++ r)).mpr ⟨r, rfl⟩
    have hlt : l.length < s.length + 1 := by
      have : s.length = l.length + (sep.length + r.length) := by
        rw [h.1]; simp [List.length_append]
      omega
    rw [hno l.length hlt] at hocc; cases hocc
  | some p =>
    obtain ⟨l0, r0⟩ := p
    obtain ⟨hl, hr⟩ := isFirstSplit_unique (splitOnceChars_some sep s l0 r0 hsp) h
    rw [hl, hr]

/-- Soundness of a failing search: no occurrence forces none. -/
theorem splitOnceChars_eq_none {s sep : List Char} (h : noOccur s sep) :
    splitOnceChars sep s = none := by
  cases hsp : splitOnceChars sep s with
  | none => rfl
  | some p =>
    obtain ⟨l, r⟩ := p
    have hf := splitOnceChars_some sep s l r hsp
    have hocc : beginsWith sep (s.drop l.length) = true := by
      rw [hf.1, List.append_assoc, List.drop_left]
      exact (beginsWith_iff sep (sep ++ r)).mpr ⟨r, rfl⟩
    have hlt : l.length < s.length + 1 := by
      have : s.length = l.length + (sep.length + r.length) := by
        rw [hf.1]; simp [List.length_append]
      omega
    rw [h l.length hlt] at hocc; cases hocc

/-- Reduction of Option.orElse on a present value. -/
theorem orElse_some {α : Type} (a : α) (f : Unit → Option α) :
    (some a).orElse f = some a := rfl

/-- Reduction of Option.orElse on an absent value. -/
theorem orElse_none {α : Type} (f : Unit → Option α) :
    (none : Option α).orElse f = f () := rfl

/-- Reduction of from_filename when the hyphen separator is found. -/
theorem from_filename_of_hyphen_split {p a t : String}
    (h : splitOnceStr ((fileStem p).getD p) sepHyphen = some (a, t)) :
    AudioInfo.from_filename p =
      { artist := some (rustTrim a), title := some (rustTrim t), filename := some p,
        youtube_url := none, isrc := none, duration_secs := none } := by
  simp only [AudioInfo.from_filename]
  rw [h, orElse_some]

/-- Reduction of from_filename when only the second separator is found. -/
theorem from_filename_of_mojibake_split {p a t : String}
    (h1 : splitOnceStr ((fileStem p).getD p) sepHyphen = none)
    (h2 : splitOnceStr ((fileStem p).getD p) sepMojibake = some (a, t)) :
    AudioInfo.from_filename p =
      { artist := some (rustTrim a), title := some (rustTrim t), filename := some p,
        youtube_url := none, isrc := none, duration_secs := none } := by
  simp only [AudioInfo.from_filename]
  rw [h1, orElse_none, h2]

/-- Reduction of from_filename when neither separator is found. -/
theorem from_filename_of_no_split {p : String}
    (h1 : splitOnceStr ((fileStem p).getD p) sepHyphen = none)
    (h2 : splitOnceStr ((fileStem p).getD p) sepMojibake = none) :
    AudioInfo.from_filename p =
      { artist := none, title := some ((fileStem p).getD p), filename := some p,
        youtube_url := none, isrc := none, duration_secs := none } := by
  simp only [AudioInfo.from_filename]
  rw [h1, orElse_none, h2]

/-- Characterization of from_filename's actual behaviour: the stem (the
basename without the final extension, the whole string when there is none)
is split at the first occurrence of " - ", else at the first occurrence of
the mojibake separator sepMojibake; when a split point is found the trimmed
left half becomes artist and the trimmed right half becomes title; when none
is found artist is absent and title is the whole stem. -/
theorem from_filename_parse (p : String) :
    (∀ l r, isFirstSplit ((fileStem p).getD p).data sepHyphen.data l r →
      (AudioInfo.from_filename p).artist = some (rustTrim (String.mk l)) ∧
      (AudioInfo.from_filename p).title = some (rustTrim (String.mk r)))
  ∧ (noOccur ((fileStem p).getD p).data sepHyphen.data →
      ∀ l r, isFirstSplit ((fileStem p).getD p).data sepMojibake.data l r →
      (AudioInfo.from_filename p).artist = some (rustTrim (String.mk l)) ∧
      (AudioInfo.from_filename p).title = some (rustTrim (String.mk r)))
  ∧ (noOccur ((fileStem p).getD p).data sepHyphen.data →
      noOccur ((fileStem p).getD p).data sepMojibake.data →
      (AudioInfo.from_filename p).artist = none ∧
      (AudioInfo.from_filename p).title = some ((fileStem p).getD p)) := by
  refine ⟨?_, ?_, ?_⟩
  · intro l r h
    have hstr : splitOnceStr ((fileStem p).getD p) sepHyphen
        = some (String.mk l, String.mk r) := by
      unfold splitOnceStr
      rw [splitOnceChars_eq_some h]
    rw [from_filename_of_hyphen_split hstr]
    exact ⟨rfl, rfl⟩
  · intro hno l r h
    have h1 : splitOnceStr ((fileStem p).getD p) sepHyphen = none := by
      unfold splitOnceStr
      rw [splitOnceChars_eq_none hno]
    have h2 : splitOnceStr ((fileStem p).getD p) sepMojibake
        = some (String.mk l, String.mk r) := by
      unfold splitOnceStr
      rw [splitOnceChars_eq_some h]
    rw [from_filename_of_mojibake_split h1 h2]
    exact ⟨rfl, rfl⟩
  · intro hno1 hno2
    have h1 : splitOnceStr ((fileStem p).getD p) sepHyphen = none := by
      unfold splitOnceStr
      rw [splitOnceChars_eq_none hno1]
    have h2 : splitOnceStr ((fileStem p).getD p) sepMojibake = none := by
      unfold splitOnceStr
      rw [splitOnceChars_eq_none hno2]
    rw [from_filename_of_no_split h1 h2]
    exact ⟨rfl, rfl⟩

/-- C2: the claim fails on the code because the second delimiter literal in
src/audio.rs line 64 is the mojibake " â€“ " (U+00E2 U+20AC U+201C between
spaces), not the en-dash " – " (U+2013). On the filename "A – B.mp3" with a
real en-dash the program finds no split point and leaves artist absent with
the whole stem as title, where the claim requires artist "A" and title "B";
the mojibake filename "A â€“ B.mp3" is the one the program splits. -/
theorem C2_en_dash_is_mojibake :
    (AudioInfo.from_filename
        (String.mk ['A', ' ', Char.ofNat 0x2013, ' ', 'B', '.', 'm', 'p', '3'])
      = { artist := none,
          title := some (String.mk ['A', ' ', Char.ofNat 0x2013, ' ', 'B']),
          filename := some (String.mk ['A', ' ', Char.ofNat 0x2013, ' ', 'B', '.', 'm', 'p', '3']),
          youtube_url := none, isrc := none, duration_secs := none })
  ∧ (AudioInfo.from_filename
        (String.mk ['A', ' ', Char.ofNat 0xE2, Char.ofNat 0x20AC, Char.ofNat 0x201C,
          ' ', 'B', '.', 'm', 'p', '3'])
      = { artist := some "A", title := some "B",
          filename := some (String.mk ['A', ' ', Char.ofNat 0xE2, Char.ofNat 0x20AC,
            Char.ofNat 0x201C, ' ', 'B', '.', 'm', 'p', '3']),
          youtube_url := none, isrc := none, duration_secs := none }) := by
  decide

/-! ## Lemmas about lowercasing -/

/-- Char.ofNat inverts toNat on code points below the surrogate range. -/
theorem toNat_ofNat_of_lt {n : Nat} (h : n < 0xD800) : (Char.ofNat n).toNat = n := by
  simp only [Char.ofNat, Nat.isValidChar]
  rw [dif_pos (Or.inl h)]
  rfl

/-- Lowercasing an ASCII-lowercased character lowercases the original. -/
theorem rustCharLower_asciiLowerChar (c : Char) :
    rustCharLower (asciiLowerChar c) = rustCharLower c := by
  by_cases h : 65 ≤ c.toNat ∧ c.toNat ≤ 90
  · have ea : asciiLowerChar c = Char.ofNat (c.toNat + 32) := by
      unfold asciiLowerChar asciiLowerNat
      rw [if_pos h]
    have h32 : (Char.ofNat (c.toNat + 32)).toNat = c.toNat + 32 :=
      toNat_ofNat_of_lt (by omega)
    have e1 : rustLowerNat (c.toNat + 32) = c.toNat + 32 := by
      unfold rustLowerNat
      rw [if_neg (by omega), if_neg (by omega)]
    have e2 : rustLowerNat c.toNat = c.toNat + 32 := by
      unfold rustLowerNat
      rw [if_pos h]
    unfold rustCharLower
    rw [ea, h32, e1, e2]
  · have ea : asciiLowerChar c = Char.ofNat c.toNat := by
      unfold asciiLowerChar asciiLowerNat
      rw [if_neg h]
    rw [ea, Char.ofNat_toNat]

/-- ASCII-case-equal strings have equal Unicode lowercasings. -/
theorem rustToLowercase_eq_of_eqIgnoreAsciiCase {s t : String}
    (h : eqIgnoreAsciiCase s t) : rustToLowercase s = rustToLowercase t := by
  unfold eqIgnoreAsciiCase at h
  unfold rustToLowercase
  have hc : rustCharLower ∘ asciiLowerChar = rustCharLower :=
    funext fun c => rustCharLower_asciiLowerChar c
  have : s.data.map rustCharLower = t.data.map rustCharLower := by
    calc s.data.map rustCharLower
        = (s.data.map asciiLowerChar).map rustCharLower := by
          rw [List.map_map, hc]
      _ = (t.data.map asciiLowerChar).map rustCharLower := by rw [h]
      _ = t.data.map rustCharLower := by rw [List.map_map, hc]
  rw [this]

/-- C1 counterexample: the claim's two-sided characterization fails. The two
infos with artists "Á" and "á" (titles both "T") receive equal AudioKeys,
because char::to_lowercase folds the Latin-1 capital Á to á, yet their
(artist, title) pairs are not equal up to ASCII case. -/
theorem C1_counterexample :
    ¬ (AudioKey.from_info
          { artist := some "Á", title := some "T", filename := none,
            youtube_url := none, isrc := none, duration_secs := none }
        = AudioKey.from_info
          { artist := some "á", title := some "T", filename := none,
            youtube_url := none, isrc := none, duration_secs := none }
      ↔ (eqIgnoreAsciiCase "Á" "á" ∧ eqIgnoreAsciiCase "T" "T")) := by decide

/-- C1 amended: for infos with both fields present, keys are equal iff the
artist and title strings are equal after char::to_lowercase folding; equality
up to ASCII case still implies equal keys (but not conversely). -/
theorem C1_key_normalization (i1 i2 : AudioInfo) (a1 t1 a2 t2 : String)
    (h1a : i1.artist = some a1) (h1t : i1.title = some t1)
    (h2a : i2.artist = some a2) (h2t : i2.title = some t2) :
    (AudioKey.from_info i1 = AudioKey.from_info i2 ↔
      (rustToLowercase a1 = rustToLowercase a2 ∧ rustToLowercase t1 = rustToLowercase t2))
  ∧ ((eqIgnoreAsciiCase a1 a2 ∧ eqIgnoreAsciiCase t1 t2) →
      AudioKey.from_info i1 = AudioKey.from_info i2) := by
  have e1 : AudioKey.from_info i1
      = some { artist := rustToLowercase a1, title := rustToLowercase t1 } := by
    unfold AudioKey.from_info
    rw [h1a, h1t]
  have e2 : AudioKey.from_info i2
      = some { artist := rustToLowercase a2, title := rustToLowercase t2 } := by
    unfold AudioKey.from_info
    rw [h2a, h2t]
  constructor
  · rw [e1, e2]
    simp [AudioKey.mk.injEq]
  · rintro ⟨ha, ht⟩
    rw [e1, e2, rustToLowercase_eq_of_eqIgnoreAsciiCase ha,
      rustToLowercase_eq_of_eqIgnoreAsciiCase ht]

/-- Witness for C1: two infos whose fields differ only in ASCII case receive
equal keys. -/
theorem C1_witness :
    AudioKey.from_info
        { artist := some "The BEATLES", title := some "Yesterday", filename := none,
          youtube_url := none, isrc := none, duration_secs := none }
      = AudioKey.from_info
        { artist := some "the beatles", title := some "YESTERDAY", filename := none,
          youtube_url := none, isrc := none, duration_secs := none } :=
  (C1_key_normalization _ _ "The BEATLES" "Yesterday" "the beatles" "YESTERDAY"
    rfl rfl rfl rfl).2 ⟨by decide, by decide⟩

/-- C3: the cache-side enumerator (src/audio.rs list_audio_in_folder) parses
entry.file_name() and so records the basename in the filename field, but the
device-side enumerator (src/device.rs AttachedDevice::list_audio_in_folder)
parses entry.path(), so the filename field receives the folder-joined full
path instead of the basename. -/
theorem C3_filename_field :
    ((cache_list_audio_in_folder [{ name := "A - B.mp3", isFile := true }]).map
        (fun i => i.filename) = [some "A - B.mp3"])
  ∧ ((device_list_audio_in_folder "/device/Rock" [{ name := "A - B.mp3", isFile := true }]).map
        (fun i => i.filename) = [some "/device/Rock/A - B.mp3"])
  ∧ (some "/device/Rock/A - B.mp3" ≠ some "A - B.mp3") := by decide

/-! ## Lemmas about the association-list maps -/

/-- Looking up a freshly inserted key finds the inserted value. -/
theorem mapLookup_mapInsert_self {α β : Type} [DecidableEq α]
    (m : List (α × β)) (k : α) (v : β) : mapLookup (mapInsert m k v) k = some v := by
  induction m with
  | nil => simp [mapInsert, mapLookup]
  | cons kv rest ih =>
    obtain ⟨k', v'⟩ := kv
    by_cases h : k' = k
    · subst h
      simp [mapInsert, mapLookup]
    · simp [mapInsert, mapLookup, h, ih]

/-- Looking up a key after pushing onto it finds the extended list. -/
theorem mapLookup_mapPush_self {α β : Type} [DecidableEq α]
    (m : List (α × List β)) (k : α) (v : β) :
    mapLookup (mapPush m k v) k = some ((mapLookup m k).getD [] ++ [v]) := by
  induction m with
  | nil => simp [mapPush, mapLookup]
  | cons kl rest ih =>
    obtain ⟨k', l⟩ := kl
    by_cases h : k' = k
    · subst h
      simp [mapPush, mapLookup]
    · simp [mapPush, mapLookup, h, ih]

/-! ## C4 — cache round-trip -/

/-- C4: for an info with a derivable key, add_to_cache with a LocalPath and
no playlist makes search return that path, the insertion overwriting any
prior index mapping for the key. -/
theorem C4_cache_round_trip (c : LocalCache) (info : AudioInfo) (p : String)
    (k : AudioKey) (h : AudioKey.from_info info = some k) :
    (c.add_to_cache info (AudioLocation.LocalPath p) none).search info
        = Except.ok (AudioLocation.LocalPath p)
  ∧ mapLookup (c.add_to_cache info (AudioLocation.LocalPath p) none).index k = some p := by
  have hidx : (c.add_to_cache info (AudioLocation.LocalPath p) none).index
      = mapInsert c.index k p := by
    simp only [LocalCache.add_to_cache]
    rw [h]
  have hlook : mapLookup (mapInsert c.index k p) k = some p :=
    mapLookup_mapInsert_self c.index k p
  refine ⟨?_, by rw [hidx]; exact hlook⟩
  unfold LocalCache.search LocalCache.search_path
  rw [h, hidx]
  simp only [hlook]

/-- Witness for C4 at a concrete cache, info and path. -/
theorem C4_witness :
    (LocalCache.search
      (LocalCache.add_to_cache
        { audio_dir := "/cache/audio",
          index := [({ artist := "a", title := "t" }, "/cache/audio/old.mp3")],
          playlists := [] }
        { artist := some "A", title := some "T", filename := none,
          youtube_url := none, isrc := none, duration_secs := none }
        (AudioLocation.LocalPath "/cache/audio/A - T.mp3") none)
      { artist := some "A", title := some "T", filename := none,
        youtube_url := none, isrc := none, duration_secs := none })
    = Except.ok (AudioLocation.LocalPath "/cache/audio/A - T.mp3") :=
  (C4_cache_round_trip _ _ "/cache/audio/A - T.mp3" { artist := "a", title := "t" }
    (by decide)).1

/-! ## C5 — search error discipline -/

/-- An info lacking artist or title derives no key. -/
theorem from_info_none_of_missing {info : AudioInfo}
    (h : info.artist = none ∨ info.title = none) :
    AudioKey.from_info info = none := by
  unfold AudioKey.from_info
  rcases h with h | h
  · rw [h]
  · rw [h]
    cases info.artist <;> rfl

/-- C5: search yields MissingInfo exactly when the key is not derivable,
NotFound when the derivable key is not indexed, and the indexed LocalPath
otherwise. -/
theorem C5_search_errors (c : LocalCache) (info : AudioInfo) :
    ((info.artist = none ∨ info.title = none) →
        c.search info = Except.error AudioError.MissingInfo)
  ∧ (∀ k, AudioKey.from_info info = some k → mapLookup c.index k = none →
        c.search info = Except.error AudioError.NotFound)
  ∧ (∀ k p, AudioKey.from_info info = some k → mapLookup c.index k = some p →
        c.search info = Except.ok (AudioLocation.LocalPath p)) := by
  refine ⟨?_, ?_, ?_⟩
  · intro h
    unfold LocalCache.search LocalCache.search_path
    rw [from_info_none_of_missing h]
  · intro k hk hlook
    unfold LocalCache.search LocalCache.search_path
    rw [hk]
    simp only [hlook]
  · intro k p hk hlook
    unfold LocalCache.search LocalCache.search_path
    rw [hk]
    simp only [hlook]

/-- Witness for C5: the spec's scenario, search on artist-less info yields
MissingInfo, not NotFound. -/
theorem C5_witness :
    LocalCache.search { audio_dir := "/cache/audio", index := [], playlists := [] }
      { artist := none, title := some "x", filename := none,
        youtube_url := none, isrc := none, duration_secs := none }
    = Except.error AudioError.MissingInfo :=
  (C5_search_errors _ _).1 (Or.inl rfl)

/-! ## C6 — fetch from the cache -/

/-- C6: fetch propagates NotFound for an unindexed identity; with the cache's
own audio directory as destination it returns the cached path and performs no
copy; with any other destination it copies the cached file to the
destination under the cached basename and returns that path. -/
theorem C6_fetch (c : LocalCache) (info : AudioInfo) (dest : String) :
    (∀ k, AudioKey.from_info info = some k → mapLookup c.index k = none →
        c.fetch info dest = Except.error AudioError.NotFound)
  ∧ (∀ cached, c.search_path info = Except.ok cached → dest = c.audio_dir →
        c.fetch info dest = Except.ok (AudioLocation.LocalPath cached, []))
  ∧ (∀ cached f, c.search_path info = Except.ok cached → dest ≠ c.audio_dir →
        fileName cached = some f →
        c.fetch info dest
          = Except.ok (AudioLocation.LocalPath (pathJoin dest f), [(cached, pathJoin dest f)])) := by
  refine ⟨?_, ?_, ?_⟩
  · intro k hk hlook
    have hsp : c.search_path info = Except.error AudioError.NotFound := by
      unfold LocalCache.search_path
      rw [hk]
      simp only [hlook]
    unfold LocalCache.fetch
    rw [hsp]
  · intro cached hsp hdest
    subst hdest
    unfold LocalCache.fetch
    rw [hsp]
    simp
  · intro cached f hsp hdest hf
    unfold LocalCache.fetch
    rw [hsp]
    simp only [if_pos hdest, hf]

/-- Decidable equality of Except results, for evaluating witnesses. -/
instance {e a : Type} [DecidableEq e] [DecidableEq a] : DecidableEq (Except e a) :=
  fun x y =>
  match x, y with
  | Except.ok v, Except.ok w =>
    if h : v = w then isTrue (by rw [h]) else
      isFalse (fun hc => h (by injection hc))
  | Except.error v, Except.error w =>
    if h : v = w then isTrue (by rw [h]) else
      isFalse (fun hc => h (by injection hc))
  | Except.ok _, Except.error _ => isFalse (fun hc => by injection hc)
  | Except.error _, Except.ok _ => isFalse (fun hc => by injection hc)

/-- Witness for C6: fetching an indexed identity to a different directory
copies under the preserved basename. -/
theorem C6_witness :
    LocalCache.fetch
      { audio_dir := "/cache/audio",
        index := [({ artist := "a", title := "t" }, "/cache/audio/A - T.mp3")],
        playlists := [] }
      { artist := some "A", title := some "T", filename := none,
        youtube_url := none, isrc := none, duration_secs := none }
      "/dev/mix"
    = Except.ok (AudioLocation.LocalPath "/dev/mix/A - T.mp3",
        [("/cache/audio/A - T.mp3", "/dev/mix/A - T.mp3")]) := by
  have h := (C6_fetch
    { audio_dir := "/cache/audio",
      index := [({ artist := "a", title := "t" }, "/cache/audio/A - T.mp3")],
      playlists := [] }
    { artist := some "A", title := some "T", filename := none,
      youtube_url := none, isrc := none, duration_secs := none }
    "/dev/mix").2.2 "/cache/audio/A - T.mp3" "A - T.mp3" (by decide) (by decide) (by decide)
  exact h.trans (by decide)

/-! ## C7 — import to an attached device -/

/-- C7: import rejects RemoteUrl sources with ExportFailed; a LocalPath
source lands under the named playlist directory (created by the call), or
under the device root for Uncategorized or an absent playlist, always under
the source's basename. -/
theorem C7_import (devPath : String) (info : AudioInfo) :
    (∀ url pl, AttachedDevice.import devPath (AudioLocation.RemoteUrl url) info pl
        = Except.error (AudioError.ExportFailed
            "Currently do not support import to AttachedDevice from non-LocalPath."))
  ∧ (∀ src base n, fileName src = some base →
        AttachedDevice.import devPath (AudioLocation.LocalPath src) info
            (some (PlaylistName.Named n))
          = Except.ok (AudioLocation.LocalPath (pathJoin (pathJoin devPath n) base),
              { dirsCreated := [pathJoin devPath n],
                copies := [(src, pathJoin (pathJoin devPath n) base)] }))
  ∧ (∀ src base pl, fileName src = some base →
        (pl = some PlaylistName.Uncategorized ∨ pl = none) →
        AttachedDevice.import devPath (AudioLocation.LocalPath src) info pl
          = Except.ok (AudioLocation.LocalPath (pathJoin devPath base),
              { dirsCreated := [devPath], copies := [(src, pathJoin devPath base)] })) := by
  refine ⟨?_, ?_, ?_⟩
  · intro url pl
    rfl
  · intro src base n hf
    unfold AttachedDevice.import
    simp only [hf, Option.getD_some]
  · intro src base pl hf hpl
    rcases hpl with rfl | rfl <;>
      · unfold AttachedDevice.import
        simp only [hf, Option.getD_some, Option.getD_none]

/-- Witness for C7: importing a cached file into a named playlist. -/
theorem C7_witness :
    AttachedDevice.import "/dev" (AudioLocation.LocalPath "/cache/audio/A - T.mp3")
      { artist := some "A", title := some "T", filename := none,
        youtube_url := none, isrc := none, duration_secs := none }
      (some (PlaylistName.Named "mix"))
    = Except.ok (AudioLocation.LocalPath "/dev/mix/A - T.mp3",
        { dirsCreated := ["/dev/mix"], copies := [("/cache/audio/A - T.mp3", "/dev/mix/A - T.mp3")] }) := by
  have h := (C7_import "/dev"
    { artist := some "A", title := some "T", filename := none,
      youtube_url := none, isrc := none, duration_secs := none }).2.1
    "/cache/audio/A - T.mp3" "A - T.mp3" "mix" (by decide)
  exact h.trans (by decide)

/-! ## C8 — playlist listing shape -/

/-- Shape of a playlist listing assembled as named playlists plus an optional
trailing Uncategorized playlist. -/
theorem playlists_shape (named : List Playlist) (audio : List AudioInfo) (l : List Playlist)
    (hnamed : ∀ pl ∈ named, pl.name ≠ PlaylistName.Uncategorized)
    (hl : l = named ++ (if audio.isEmpty then [] else
      [{ name := PlaylistName.Uncategorized, audio := audio }])) :
    ((l.filter (fun pl => decide (pl.name = PlaylistName.Uncategorized))).length ≤ 1)
  ∧ (∀ pl ∈ l.dropLast, pl.name ≠ PlaylistName.Uncategorized)
  ∧ ((∃ pl ∈ l, pl.name = PlaylistName.Uncategorized) ↔ audio ≠ [])
  ∧ (audio ≠ [] →
      l.getLast? = some { name := PlaylistName.Uncategorized, audio := audio }) := by
  have hfilter : named.filter (fun pl => decide (pl.name = PlaylistName.Uncategorized)) = [] := by
    rw [List.filter_eq_nil_iff]
    intro pl hpl
    simp only [decide_eq_true_eq]
    exact hnamed pl hpl
  by_cases ha : audio.isEmpty
  · have haudio : audio = [] := List.isEmpty_iff.mp ha
    rw [if_pos ha, List.append_nil] at hl
    subst hl
    refine ⟨?_, ?_, ?_, ?_⟩
    · rw [hfilter]; simp
    · intro pl hpl
      exact hnamed pl (List.mem_of_mem_dropLast hpl)
    · constructor
      · rintro ⟨pl, hpl, hu⟩
        exact absurd hu (hnamed pl hpl)
      · intro hne; exact absurd haudio hne
    · intro hne; exact absurd haudio hne
  · have haudio : audio ≠ [] := by
      intro he; rw [he] at ha; exact ha rfl
    rw [if_neg ha] at hl
    subst hl
    refine ⟨?_, ?_, ?_, ?_⟩
    · rw [List.filter_append, hfilter]
      simp
    · intro pl hpl
      rw [List.dropLast_concat] at hpl
      exact hnamed pl hpl
    · constructor
      · intro _; exact haudio
      · intro _
        exact ⟨{ name := PlaylistName.Uncategorized, audio := audio },
          List.mem_append_right _ (List.mem_singleton.mpr rfl), rfl⟩
    · intro _
      exact List.getLast?_concat _

/-- The named playlists of a device listing are never Uncategorized. -/
theorem device_named_not_uncategorized (devPath : String) (root : List RootEntry) :
    ∀ pl ∈ (root.filter dirFilter).map (fun e =>
      ({ name := PlaylistName.Named e.name,
         audio := device_list_audio_in_folder (pathJoin devPath e.name) e.contents } : Playlist)),
      pl.name ≠ PlaylistName.Uncategorized := by
  intro pl hpl
  obtain ⟨e, _, rfl⟩ := List.mem_map.mp hpl
  simp

/-- The named playlists of a cache listing are never Uncategorized. -/
theorem cache_named_not_uncategorized (c : LocalCache) :
    ∀ pl ∈ c.playlists.map (fun nt =>
      ({ name := PlaylistName.Named nt.1, audio := nt.2 } : Playlist)),
      pl.name ≠ PlaylistName.Uncategorized := by
  intro pl hpl
  obtain ⟨nt, _, rfl⟩ := List.mem_map.mp hpl
  simp

/-- C8: both AudioIndex implementations list at most one Uncategorized
playlist, keep every playlist before the last Named, include an
Uncategorized playlist exactly when ungrouped supported audio exists (root
files for the device, audio-directory files for the cache) and then place it
last; a fresh empty cache lists nothing. -/
theorem C8_list_playlists :
    (∀ devPath root,
      (((AttachedDevice.list_playlists devPath root).filter
          (fun pl => decide (pl.name = PlaylistName.Uncategorized))).length ≤ 1)
      ∧ (∀ pl ∈ (AttachedDevice.list_playlists devPath root).dropLast,
            pl.name ≠ PlaylistName.Uncategorized)
      ∧ ((∃ pl ∈ AttachedDevice.list_playlists devPath root,
            pl.name = PlaylistName.Uncategorized) ↔
          device_list_audio_in_folder devPath
            (root.map (fun e => { name := e.name, isFile := !e.isDir })) ≠ [])
      ∧ (device_list_audio_in_folder devPath
            (root.map (fun e => { name := e.name, isFile := !e.isDir })) ≠ [] →
          (AttachedDevice.list_playlists devPath root).getLast?
            = some { name := PlaylistName.Uncategorized,
                     audio := device_list_audio_in_folder devPath
                       (root.map (fun e => { name := e.name, isFile := !e.isDir })) }))
  ∧ (∀ (c : LocalCache) entries,
      (((c.list_playlists entries).filter
          (fun pl => decide (pl.name = PlaylistName.Uncategorized))).length ≤ 1)
      ∧ (∀ pl ∈ (c.list_playlists entries).dropLast,
            pl.name ≠ PlaylistName.Uncategorized)
      ∧ ((∃ pl ∈ c.list_playlists entries, pl.name = PlaylistName.Uncategorized) ↔
          cache_list_audio_in_folder entries ≠ [])
      ∧ (cache_list_audio_in_folder entries ≠ [] →
          (c.list_playlists entries).getLast?
            = some { name := PlaylistName.Uncategorized,
                     audio := cache_list_audio_in_folder entries }))
  ∧ (∀ dir, LocalCache.list_playlists
      { audio_dir := dir, index := [], playlists := [] } [] = []) := by
  refine ⟨?_, ?_, ?_⟩
  · intro devPath root
    exact playlists_shape _ _ _ (device_named_not_uncategorized devPath root) rfl
  · intro c entries
    exact playlists_shape _ _ _ (cache_named_not_uncategorized c) rfl
  · intro dir
    rfl

/-- Witness for C8: the spec's scenario, a device with root files and one
named subdirectory lists the Uncategorized playlist last. -/
theorem C8_witness :
    (AttachedDevice.list_playlists "/dev"
      [{ name := "Rock", isDir := true, contents := [{ name := "x.mp3", isFile := true }] },
       { name := "a.mp3", isDir := false, contents := [] }]).getLast?
    = some { name := PlaylistName.Uncategorized,
             audio := device_list_audio_in_folder "/dev"
               [{ name := "Rock", isFile := false }, { name := "a.mp3", isFile := true }] } :=
  (C8_list_playlists.1 "/dev"
    [{ name := "Rock", isDir := true, contents := [{ name := "x.mp3", isFile := true }] },
     { name := "a.mp3", isDir := false, contents := [] }]).2.2.2 (by decide)

/-! ## C9 — playlist resolution -/

/-- A successful collection keeps every input, in order, as the first
components, each paired by a successful call. -/
theorem collectResults_pairs {α β : Type} (f : α → Except AudioError (α × β))
    (hf : ∀ a b, f a = Except.ok b → b.1 = a) :
    ∀ l bs, collectResults f l = Except.ok bs →
      bs.map Prod.fst = l ∧ ∀ b ∈ bs, f b.1 = Except.ok b := by
  intro l
  induction l with
  | nil =>
    intro bs h
    simp only [collectResults] at h
    obtain rfl : ([] : List (α × β)) = bs := by simpa using h
    simp
  | cons a l ih =>
    intro bs h
    simp only [collectResults] at h
    cases hfa : f a with
    | error e => rw [hfa] at h; simp at h
    | ok b =>
      rw [hfa] at h
      cases hc : collectResults f l with
      | error e => rw [hc] at h; simp at h
      | ok bs' =>
        rw [hc] at h
        obtain rfl : b :: bs' = bs := by simpa using h
        obtain ⟨h1, h2⟩ := ih bs' hc
        have hb1 : b.1 = a := hf a b hfa
        refine ⟨by simp [h1, hb1], ?_⟩
        intro x hx
        rcases List.mem_cons.mp hx with rfl | hx
        · rw [hb1]; exact hfa
        · exact h2 x hx

/-- A collection over inputs that all succeed succeeds. -/
theorem collectResults_total {α β : Type} (f : α → Except AudioError β) :
    ∀ l, (∀ a ∈ l, ∃ b, f a = Except.ok b) →
      ∃ bs, collectResults f l = Except.ok bs := by
  intro l
  induction l with
  | nil => intro _; exact ⟨[], rfl⟩
  | cons a l ih =>
    intro h
    obtain ⟨b, hb⟩ := h a (List.mem_cons_self a l)
    obtain ⟨bs, hbs⟩ := ih (fun x hx => h x (List.mem_cons_of_mem a hx))
    refine ⟨b :: bs, ?_⟩
    simp only [collectResults]
    rw [hb, hbs]

/-- A collection over inputs one of which fails fails. -/
theorem collectResults_fails {α β : Type} (f : α → Except AudioError β) :
    ∀ l, (∃ a ∈ l, ∀ b, f a ≠ Except.ok b) →
      ∃ e, collectResults f l = Except.error e := by
  intro l
  induction l with
  | nil => rintro ⟨a, ha, _⟩; simp at ha
  | cons a l ih =>
    rintro ⟨x, hx, hbad⟩
    rcases List.mem_cons.mp hx with rfl | hx
    · cases hfa : f x with
      | error e =>
        refine ⟨e, ?_⟩
        simp only [collectResults]
        rw [hfa]
      | ok b => exact absurd hfa (hbad b)
    · cases hfa : f a with
      | error e =>
        refine ⟨e, ?_⟩
        simp only [collectResults]
        rw [hfa]
      | ok b =>
        obtain ⟨e, he⟩ := ih ⟨x, hx, hbad⟩
        refine ⟨e, ?_⟩
        simp only [collectResults]
        rw [hfa, he]

/-- search_playlist is the fail-fast collection of resolveEntry over the
overlay entry. -/
theorem search_playlist_eq (c : LocalCache) (name : String) (entries : List AudioInfo)
    (h : mapLookup c.playlists name = some entries) :
    c.search_playlist name = collectResults (resolveEntry c) entries := by
  unfold LocalCache.search_playlist
  rw [h]

/-- A successful resolveEntry pairs the entry itself with a successful
search result. -/
theorem resolveEntry_ok (c : LocalCache) :
    ∀ info b, resolveEntry c info = Except.ok b →
      b.1 = info ∧ c.search info = Except.ok b.2 := by
  intro info b h
  unfold resolveEntry at h
  cases hs : c.search info with
  | error e => rw [hs] at h; simp at h
  | ok loc =>
    rw [hs] at h
    obtain rfl : (info, loc) = b := by simpa using h
    exact ⟨rfl, rfl⟩

/-- C9: when the playlist is present in the overlay, a successful
search_playlist returns exactly one pair per overlay entry, in order, each
resolved through search; it succeeds when every entry resolves and fails as
a whole when any single entry fails to resolve. -/
theorem C9_search_playlist (c : LocalCache) (name : String) (entries : List AudioInfo)
    (h : mapLookup c.playlists name = some entries) :
    (∀ ps, c.search_playlist name = Except.ok ps →
        ps.map Prod.fst = entries ∧ ∀ pr ∈ ps, c.search pr.1 = Except.ok pr.2)
  ∧ ((∀ info ∈ entries, ∃ loc, c.search info = Except.ok loc) →
        ∃ ps, c.search_playlist name = Except.ok ps)
  ∧ ((∃ info ∈ entries, ∀ loc, c.search info ≠ Except.ok loc) →
        ∃ e, c.search_playlist name = Except.error e) := by
  rw [search_playlist_eq c name entries h]
  refine ⟨?_, ?_, ?_⟩
  · intro ps hps
    have hf : ∀ a b, resolveEntry c a = Except.ok b → b.1 = a :=
      fun a b hab => (resolveEntry_ok c a b hab).1
    obtain ⟨h1, h2⟩ := collectResults_pairs (resolveEntry c) hf entries ps hps
    refine ⟨h1, ?_⟩
    intro pr hpr
    have := resolveEntry_ok c pr.1 pr (h2 pr hpr)
    exact this.2
  · intro hall
    apply collectResults_total
    intro a ha
    obtain ⟨loc, hloc⟩ := hall a ha
    refine ⟨(a, loc), ?_⟩
    unfold resolveEntry
    rw [hloc]
  · intro hbad
    apply collectResults_fails
    obtain ⟨info, hmem, hnever⟩ := hbad
    refine ⟨info, hmem, ?_⟩
    intro b hb
    exact hnever b.2 (resolveEntry_ok c info b hb).2

/-- Witness for C9: resolving a one-entry playlist against a cache that
indexes it succeeds. -/
theorem C9_witness :
    ∃ ps, LocalCache.search_playlist
      { audio_dir := "/cache/audio",
        index := [({ artist := "a", title := "t" }, "/cache/audio/A - T.mp3")],
        playlists := [("mix",
          [{ artist := some "A", title := some "T", filename := none,
             youtube_url := none, isrc := none, duration_secs := none }])] }
      "mix" = Except.ok ps :=
  (C9_search_playlist
    { audio_dir := "/cache/audio",
      index := [({ artist := "a", title := "t" }, "/cache/audio/A - T.mp3")],
      playlists := [("mix",
        [{ artist := some "A", title := some "T", filename := none,
           youtube_url := none, isrc := none, duration_secs := none }])] }
    "mix"
    [{ artist := some "A", title := some "T", filename := none,
       youtube_url := none, isrc := none, duration_secs := none }]
    (by decide)).2.1
    (fun info hinfo => by
      rw [List.mem_singleton.mp hinfo]
      exact ⟨AudioLocation.LocalPath "/cache/audio/A - T.mp3", by decide⟩)

/-! ## C10 — unconditional playlist append -/

/-- add_to_cache with a playlist always pushes the info onto that playlist's
overlay entry, whatever the location and key. -/
theorem add_to_cache_playlists (c : LocalCache) (info : AudioInfo)
    (loc : AudioLocation) (name : String) :
    (c.add_to_cache info loc (some name)).playlists = mapPush c.playlists name info := by
  unfold LocalCache.add_to_cache LocalCache.add_to_playlist
  cases loc <;> cases AudioKey.from_info info <;> rfl

/-- C10: add_to_cache with a playlist appends the info to the overlay entry
(creating it if absent) unconditionally, even for a RemoteUrl location or an
info without a derivable key, in which cases the index is untouched;
repeated calls append duplicates; search_playlist on an absent overlay name
is NotFound rather than an empty list. -/
theorem C10_playlist_append :
    (∀ (c : LocalCache) info loc name,
        mapLookup (c.add_to_cache info loc (some name)).playlists name
          = some (((mapLookup c.playlists name).getD []) ++ [info]))
  ∧ (∀ (c : LocalCache) info url name,
        (c.add_to_cache info (AudioLocation.RemoteUrl url) (some name)).index = c.index)
  ∧ (∀ (c : LocalCache) info loc name, AudioKey.from_info info = none →
        (c.add_to_cache info loc (some name)).index = c.index)
  ∧ (∀ (c : LocalCache) info loc name,
        mapLookup ((c.add_to_cache info loc (some name)).add_to_cache info loc
            (some name)).playlists name
          = some (((mapLookup c.playlists name).getD []) ++ [info, info]))
  ∧ (∀ (c : LocalCache) name, mapLookup c.playlists name = none →
        c.search_playlist name = Except.error AudioError.NotFound) := by
  have hpush : ∀ (c : LocalCache) info loc name,
      mapLookup (c.add_to_cache info loc (some name)).playlists name
        = some (((mapLookup c.playlists name).getD []) ++ [info]) := by
    intro c info loc name
    rw [add_to_cache_playlists, mapLookup_mapPush_self]
  refine ⟨hpush, ?_, ?_, ?_, ?_⟩
  · intro c info url name
    unfold LocalCache.add_to_cache LocalCache.add_to_playlist
    rfl
  · intro c info loc name h
    unfold LocalCache.add_to_cache LocalCache.add_to_playlist
    cases loc
    · rw [h]
    · rfl
  · intro c info loc name
    rw [hpush, hpush]
    simp
  · intro c name h
    unfold LocalCache.search_playlist
    rw [h]

/-- Witness for C10: a RemoteUrl download lands in the overlay of a fresh
cache while the index stays empty, and an unknown playlist is NotFound. -/
theorem C10_witness :
    (mapLookup
        (LocalCache.add_to_cache
          { audio_dir := "/cache/audio", index := [], playlists := [] }
          { artist := none, title := some "x", filename := none,
            youtube_url := some "https://youtube.example/x", isrc := none,
            duration_secs := none }
          (AudioLocation.RemoteUrl "https://youtube.example/x") (some "mix")).playlists
        "mix"
      = some
          [{ artist := none, title := some "x", filename := none,
             youtube_url := some "https://youtube.example/x", isrc := none,
             duration_secs := none }])
  ∧ ((LocalCache.add_to_cache
        { audio_dir := "/cache/audio", index := [], playlists := [] }
        { artist := none, title := some "x", filename := none,
          youtube_url := some "https://youtube.example/x", isrc := none,
          duration_secs := none }
        (AudioLocation.RemoteUrl "https://youtube.example/x") (some "mix")).index = [])
  ∧ (LocalCache.search_playlist
        { audio_dir := "/cache/audio", index := [], playlists := [] } "none"
      = Except.error AudioError.NotFound) := by
  refine ⟨?_, ?_, ?_⟩
  · exact (C10_playlist_append.1
      { audio_dir := "/cache/audio", index := [], playlists := [] }
      { artist := none, title := some "x", filename := none,
        youtube_url := some "https://youtube.example/x", isrc := none,
        duration_secs := none }
      (AudioLocation.RemoteUrl "https://youtube.example/x") "mix").trans (by decide)
  · exact C10_playlist_append.2.1
      { audio_dir := "/cache/audio", index := [], playlists := [] }
      { artist := none, title := some "x", filename := none,
        youtube_url := some "https://youtube.example/x", isrc := none,
        duration_secs := none }
      "https://youtube.example/x" "mix"
  · exact C10_playlist_append.2.2.2.2
      { audio_dir := "/cache/audio", index := [], playlists := [] } "none" (by decide)
